import Mathlib

/-!
Verification of the MNA circuit analyzer of `mna_gui.py`.

The two core functions of the repository are shallowly embedded here:

* `convertir_valor` — the SI-suffix value parser (`mna_gui.py`, lines 19-32);
* `construir_y_resolver` — the Modified-Nodal-Analysis solver
  (`mna_gui.py`, lines 37-159).

Numeric values (Python floats) are idealized as rationals `ℚ`, so every
arithmetic identity below is exact; `numpy.linalg.solve` on an exactly
represented system is idealized as: fail with `LinAlgError` precisely when the
coefficient matrix is singular (determinant zero), otherwise return the unique
solution of the square system (written via Cramer's rule).
-/

attribute [local semireducible] Rat.add Rat.mul Rat.inv Rat.sub

deriving instance DecidableEq for Except

namespace MNA

/-! ## The value parser -/

/-- Strip leading and trailing whitespace from a character list: Python's
`str.strip()` (and the stripping `float()` itself performs). -/
def trimChars (l : List Char) : List Char :=
  ((l.dropWhile Char.isWhitespace).reverse.dropWhile Char.isWhitespace).reverse

/-- Read an optional leading sign, as Python's `float()` does. Returns
`(negative?, rest)`. -/
def leerSigno : List Char → Bool × List Char
  | '-' :: r => (true, r)
  | '+' :: r => (false, r)
  | r => (false, r)

/-- Value of a list of decimal digit characters. -/
def digitosVal (l : List Char) : Nat :=
  l.foldl (fun a c => 10 * a + (c.toNat - '0'.toNat)) 0

/-- Model of Python's built-in `float()` on ordinary decimal numerals:
surrounding whitespace is ignored, then an optional sign, an integer part
and/or a fractional part (at least one digit in total), and an optional
decimal exponent are accepted; anything else yields `none` (a `ValueError`
in Python). Special spellings accepted by CPython (`inf`, `nan`,
underscore separators) are outside the repository's use and not modelled. -/
def pyFloat (cs0 : List Char) : Option ℚ :=
  let cs := trimChars cs0
  let sg := leerSigno cs
  let ds := sg.2.takeWhile Char.isDigit
  let r1 := sg.2.dropWhile Char.isDigit
  let fr : List Char × List Char :=
    match r1 with
    | '.' :: r => (r.takeWhile Char.isDigit, r.dropWhile Char.isDigit)
    | r => ([], r)
  if ds.isEmpty && fr.1.isEmpty then none
  else
    let mant : ℚ := (digitosVal (ds ++ fr.1) : ℚ) / (10 : ℚ) ^ fr.1.length
    let base : ℚ := if sg.1 then -mant else mant
    match fr.2 with
    | [] => some base
    | c :: r =>
      if c = 'e' ∨ c = 'E' then
        let esg := leerSigno r
        let es := esg.2.takeWhile Char.isDigit
        let r2 := esg.2.dropWhile Char.isDigit
        if es.isEmpty || !r2.isEmpty then none
        else
          some (base * (if esg.1 then ((10 : ℚ) ^ digitosVal es)⁻¹
                        else (10 : ℚ) ^ digitosVal es))
      else none

/-- The SI multiplier dictionary `{'k': 1e3, 'M': 1e6, 'm': 1e-3, 'u': 1e-6}`
of `convertir_valor` (line 27 of `mna_gui.py`), as a partial map on the last
character. -/
def multiplicadores (c : Char) : Option ℚ :=
  if c = 'k' then some 1000
  else if c = 'M' then some 1000000
  else if c = 'm' then some (1 / 1000)
  else if c = 'u' then some (1 / 1000000)
  else none

/-- The error of the value parser: Python's `ValueError`, raised for an empty
input (`"Valor vacío"`) or by `float()` on non-numeric text. -/
inductive ValorError where
  | invalidValue
deriving DecidableEq

/-- Shallow embedding of `convertir_valor` (lines 19-32 of `mna_gui.py`):
strip the input (`valor_str.strip()`), fail on empty (`"Valor vacío"`), and
if the last character `s[-1]` is an SI suffix parse the remaining text
`s[:-1]` as a float and scale it, otherwise parse the whole text as a float.
The input string is viewed as its character list. -/
def convertir_valor (valor_str : String) : Except ValorError ℚ :=
  let s := trimChars valor_str.toList
  match s.getLast? with
  | none => .error .invalidValue
  | some c =>
    match multiplicadores c with
    | some mult =>
      match pyFloat s.dropLast with
      | some num => .ok (num * mult)
      | none => .error .invalidValue
    | none =>
      match pyFloat s with
      | some num => .ok num
      | none => .error .invalidValue

/-! ## The MNA solver -/

/-- A circuit element as entered in the GUI: the tuple `(tipo, np, nn, val)` of
`mna_gui.py`, with `tipo` the kind tag ("R" for a resistor, "V" for a voltage
source), `np`/`nn` the positive/negative terminal nodes (0 is ground) and
`val` the numeric value (resistance in ohms, or source voltage in volts),
idealized as a rational. -/
structure Elemento where
  tipo : String
  np : Nat
  nn : Nat
  val : ℚ
deriving DecidableEq

/-- Errors that `construir_y_resolver` can raise: `unknownKind` models the
`ValueError("Tipo de elemento desconocido: ...")` of line 101, `singular`
models `numpy.linalg.LinAlgError` (idealized as an exactly singular matrix),
and `divisionByZero` models Python's `ZeroDivisionError` from `1.0 / val` on
line 80. -/
inductive MNAError where
  | unknownKind (tipo : String)
  | singular
  | divisionByZero
deriving DecidableEq

/-- A dense matrix is idealized as a total function on `Nat` indices; entries
outside the intended range stay `0` and are never read. -/
abbrev Mat := Nat → Nat → ℚ

/-- Write `x` at entry `(i, j)`, mirroring a numpy element assignment. -/
def upd2 (M : Mat) (i j : Nat) (x : ℚ) : Mat :=
  fun a b => if a = i ∧ b = j then x else M a b

/-- Mirror of `G[i, j] += g`. -/
def addG (M : Mat) (i j : Nat) (g : ℚ) : Mat := upd2 M i j (M i j + g)

/-- Mirror of `G[i, j] -= g`. -/
def subG (M : Mat) (i j : Nat) (g : ℚ) : Mat := upd2 M i j (M i j - g)

/-- The resistor stamp of `construir_y_resolver` (lines 78-91 of `mna_gui.py`):
add the conductance on the diagonal for each non-ground terminal and subtract
it symmetrically when both terminals are non-ground. -/
def stampRmat (nidx : Nat → Nat) (g : ℚ) (np nn : Nat) (M : Mat) : Mat :=
  let M1 := if np ≠ 0 then addG M (nidx np) (nidx np) g else M
  let M2 := if nn ≠ 0 then addG M1 (nidx nn) (nidx nn) g else M1
  if np ≠ 0 ∧ nn ≠ 0 then
    subG (subG M2 (nidx np) (nidx nn) g) (nidx nn) (nidx np) g
  else M2

/-- The voltage-source stamp into the incidence matrix `B` (lines 92-99 of
`mna_gui.py`): `B[nodo_index[np], idx_v] = 1` and
`B[nodo_index[nn], idx_v] = -1`, each guarded by the terminal being
non-ground (the `nn` write happens second, so it wins if the cells agree). -/
def stampVmat (nidx : Nat → Nat) (np nn idxv : Nat) (M : Mat) : Mat :=
  let M1 := if np ≠ 0 then upd2 M (nidx np) idxv 1 else M
  if nn ≠ 0 then upd2 M1 (nidx nn) idxv (-1) else M1

/-- The assembly state of the loop in `construir_y_resolver`: the conductance
matrix `G`, the incidence matrix `B`, the source-value vector `E` and the
running source counter `idx_v`. -/
structure Build where
  G : Mat
  B : Mat
  E : Nat → ℚ
  idxv : Nat

/-- The zero-initialized assembly state (`np.zeros`, lines 69-72). -/
def build0 : Build := ⟨fun _ _ => 0, fun _ _ => 0, fun _ => 0, 0⟩

/-- One iteration of the assembly loop of `construir_y_resolver`
(lines 76-101): stamp a resistor into `G` (raising `ZeroDivisionError` if
`val = 0`, as `1.0 / val` does in Python), stamp a voltage source into
`B`/`E` and advance `idx_v`, or raise on an unknown kind tag. -/
def stampElem (nidx : Nat → Nat) (st : Build) (e : Elemento) : Except MNAError Build :=
  if e.tipo = "R" then
    if e.val = 0 then .error .divisionByZero
    else .ok { st with G := stampRmat nidx (1 / e.val) e.np e.nn st.G }
  else if e.tipo = "V" then
    .ok { st with
      B := stampVmat nidx e.np e.nn st.idxv st.B
      E := Function.update st.E st.idxv e.val
      idxv := st.idxv + 1 }
  else .error (.unknownKind e.tipo)

/-- The whole assembly loop, folded over the element list in order. -/
def buildMats (nidx : Nat → Nat) (elementos : List Elemento) : Except MNAError Build :=
  elementos.foldlM (stampElem nidx) build0

/-- Insert a node into an ascending duplicate-free list, keeping it ascending
and duplicate-free: the executable counterpart of adding one element to a set
that is later listed in sorted order. -/
def insNodo (x : Nat) : List Nat → List Nat
  | [] => [x]
  | y :: ys => if x < y then x :: y :: ys else if x = y then y :: ys else y :: insNodo x ys

/-- The ascending list of the distinct members of `l`: Python's
`sorted(set(l))`. -/
def sortNodos (l : List Nat) : List Nat := l.foldr insNodo []

/-- The sorted list of distinct non-ground nodes referenced by the circuit:
`sorted(set(all terminals) - {0})` in `mna_gui.py` (lines 52-58). -/
def nodosDe (elementos : List Elemento) : List Nat :=
  sortNodos ((elementos.map (·.np) ++ elementos.map (·.nn)).filter (· ≠ 0))

/-- The node-index map `nodo_index`: position of a node in the sorted node
list (line 62 of `mna_gui.py`). -/
def nodo_index (nodos : List Nat) (nd : Nat) : Nat := nodos.indexOf nd

/-- The voltage-source sublist `fuentes` (line 65 of `mna_gui.py`). -/
def fuentesDe (elementos : List Elemento) : List Elemento :=
  elementos.filter (fun e => e.tipo = "V")

/-- Executable Laplace expansion of the determinant along the first row,
written with a bare `Nat.rec` so that it evaluates by kernel reduction. -/
def detExec (k : Nat) : Matrix (Fin k) (Fin k) ℚ → ℚ :=
  Nat.rec (motive := fun k => Matrix (Fin k) (Fin k) ℚ → ℚ)
    (fun _ => 1)
    (fun k ih M =>
      ∑ j : Fin (k + 1), (-1) ^ (j : ℕ) * M 0 j * ih (M.submatrix Fin.succ j.succAbove))
    k

/-- Idealization of `numpy.linalg.solve` on an exactly represented rational
system (line 123 of `mna_gui.py`): fail (with `LinAlgError`) precisely when
the coefficient matrix is singular, and otherwise return the unique solution
of the square system, written via Cramer's rule. -/
def solveLin (k : Nat) (A : Matrix (Fin k) (Fin k) ℚ) (z : Fin k → ℚ) : Option (Fin k → ℚ) :=
  if detExec k A = 0 then none
  else some (fun i => detExec k (A.updateColumn i z) / detExec k A)

/-- The augmented MNA matrix `A = np.block([[G, B], [B.T, zeros]])`
(lines 115-118 of `mna_gui.py`). -/
def armarA (n m : Nat) (st : Build) : Matrix (Fin (n + m)) (Fin (n + m)) ℚ :=
  fun i j =>
    if (i : ℕ) < n then
      (if (j : ℕ) < n then st.G (i : ℕ) (j : ℕ) else st.B (i : ℕ) ((j : ℕ) - n))
    else
      (if (j : ℕ) < n then st.B (j : ℕ) ((i : ℕ) - n) else 0)

/-- The right-hand side `z = np.vstack((I, E))` with `I = 0` (line 119). -/
def armarZ (n : Nat) {k : Nat} (st : Build) : Fin k → ℚ :=
  fun i => if (i : ℕ) < n then 0 else st.E ((i : ℕ) - n)

/-- Lookup in the node-voltage dictionary with default `0.0`:
`Vn.get(node, 0.0)` (lines 145-146). -/
def vnGet (Vn : List (Nat × ℚ)) (k : Nat) : ℚ := (Vn.lookup k).getD 0

/-- The node-voltage dictionary `Vn = {0: 0.0}` followed by
`Vn[nodo] = Vn_vec[i]` for each non-ground node in order (lines 132-135). -/
def vnOf (nodos : List Nat) (xN : Nat → ℚ) : List (Nat × ℚ) :=
  (0, 0) :: (List.range nodos.length).map (fun i => (nodos.getD i 0, xN i))

/-- Restrict a `Fin`-indexed solution vector to a `Nat`-indexed one. -/
def liftX (k : Nat) (x : Fin k → ℚ) : Nat → ℚ :=
  fun i => if h : i < k then x ⟨i, h⟩ else 0

/-- The per-resistor current `(Va - Vb) / val` of the reporting loop
(lines 141-150 of `mna_gui.py`). -/
def corrienteR (Vn : List (Nat × ℚ)) (e : Elemento) : ℚ :=
  (vnGet Vn e.np - vnGet Vn e.nn) / e.val

/-- The solver output: non-ground node list, node-voltage dictionary, source
currents, resistor currents and resistor powers. -/
structure Resultado where
  nodos : List Nat
  Vn : List (Nat × ℚ)
  corriente_fuentes : List ℚ
  corriente_resistencias : List ℚ
  potencias_resistencias : List ℚ
deriving DecidableEq

/-- Steps 7-9 of `construir_y_resolver` (lines 128-159): split the solution
vector into node voltages and source currents, build the voltage dictionary,
and compute per-resistor currents `(Va - Vb) / val` and powers `I * I * val`
in element order. -/
def resultadoDe (elementos : List Elemento) (nodos : List Nat) (m : Nat) (xN : Nat → ℚ) :
    Resultado :=
  { nodos := nodos
    Vn := vnOf nodos xN
    corriente_fuentes := (List.range m).map (fun k => xN (nodos.length + k))
    corriente_resistencias := elementos.filterMap (fun e =>
      if e.tipo = "R" then some (corrienteR (vnOf nodos xN) e) else none)
    potencias_resistencias := elementos.filterMap (fun e =>
      if e.tipo = "R" then
        some (corrienteR (vnOf nodos xN) e * corrienteR (vnOf nodos xN) e * e.val)
      else none) }

/-- Shallow embedding of `construir_y_resolver` (lines 37-159 of `mna_gui.py`):
collect the sorted non-ground nodes, stamp every element into `G`/`B`/`E`,
handle the trivial `n = 0` case (empty outputs, or `LinAlgError` if any
source is present, lines 104-113), and otherwise solve the augmented system
and post-process. -/
def construir_y_resolver (elementos : List Elemento) : Except MNAError Resultado :=
  match buildMats (nodo_index (nodosDe elementos)) elementos with
  | .error err => .error err
  | .ok st =>
    if (nodosDe elementos).length = 0 then
      if 0 < (fuentesDe elementos).length then .error .singular
      else .ok ⟨[], [], [], [], []⟩
    else
      match solveLin ((nodosDe elementos).length + (fuentesDe elementos).length)
          (armarA (nodosDe elementos).length (fuentesDe elementos).length st)
          (armarZ (nodosDe elementos).length st) with
      | none => .error .singular
      | some x =>
        .ok (resultadoDe elementos (nodosDe elementos) (fuentesDe elementos).length
          (liftX ((nodosDe elementos).length + (fuentesDe elementos).length) x))

/-! ## Specification-side descriptions used to state the claims -/

/-- Data-model well-formedness from the spec (section 3): every component is
a resistor with nonzero resistance, or a voltage source. -/
def wfElem (e : Elemento) : Prop := (e.tipo = "R" ∧ e.val ≠ 0) ∨ e.tipo = "V"

instance (e : Elemento) : Decidable (wfElem e) :=
  inferInstanceAs (Decidable ((e.tipo = "R" ∧ e.val ≠ 0) ∨ e.tipo = "V"))

/-- The per-element conductance contribution described by the spec
(section 4.2, step 4): for a resistor, `g = 1/val` on the diagonal for each
non-ground terminal, and `-g` at the two symmetric off-diagonal positions
when both terminals are non-ground; nothing for any other element. -/
def stampRSpec (nidx : Nat → Nat) (e : Elemento) (i j : Nat) : ℚ :=
  if e.tipo = "R" then
    (if e.np ≠ 0 ∧ i = nidx e.np ∧ j = nidx e.np then 1 / e.val else 0)
    + (if e.nn ≠ 0 ∧ i = nidx e.nn ∧ j = nidx e.nn then 1 / e.val else 0)
    - (if e.np ≠ 0 ∧ e.nn ≠ 0 ∧ i = nidx e.np ∧ j = nidx e.nn then 1 / e.val else 0)
    - (if e.np ≠ 0 ∧ e.nn ≠ 0 ∧ i = nidx e.nn ∧ j = nidx e.np then 1 / e.val else 0)
  else 0

/-- The column of the incidence matrix `B` generated by one voltage source:
`-1` at the negative terminal's row, `1` at the positive terminal's row
(the negative write happens second in the code, so it wins on a self-loop). -/
def colB (nidx : Nat → Nat) (e : Elemento) (r : Nat) : ℚ :=
  if e.nn ≠ 0 ∧ r = nidx e.nn then -1
  else if e.np ≠ 0 ∧ r = nidx e.np then 1
  else 0

/-- Invariant of the assembly loop: after processing a prefix whose voltage
sources are `srcs`, the counter `idx_v` equals `srcs.length`, column `c` of
`B` is the incidence column of the `c`-th source (zero beyond), and `E c` is
the `c`-th source's voltage (zero beyond). -/
def BInv (nidx : Nat → Nat) (srcs : List Elemento) (st : Build) : Prop :=
  st.idxv = srcs.length ∧
  (∀ r c, st.B r c = match srcs.get? c with | some e => colB nidx e r | none => 0) ∧
  (∀ c, st.E c = match srcs.get? c with | some e => e.val | none => 0)

/-- The example circuit of the spec: a 1 kΩ resistor and a 5 V source between
node 1 and ground. -/
def circuitoEjemplo : List Elemento := [⟨"R", 1, 0, 1000⟩, ⟨"V", 1, 0, 5⟩]

/-- The assembly state built for `circuitoEjemplo`, used to witness the
conductance-stamp theorem. -/
def stEjemplo : Build :=
  match buildMats (nodo_index (nodosDe circuitoEjemplo)) circuitoEjemplo with
  | .ok st => st
  | .error _ => build0

/-- The exact solver output on `circuitoEjemplo`. -/
def resEjemplo : Resultado :=
  ⟨[1], [(0, 0), (1, 5)], [-(1 / 200)], [1 / 200], [1 / 40]⟩

end MNA

namespace MNA

/-! ## General lemmas about the embedding -/

theorem detExec_zero (M : Matrix (Fin 0) (Fin 0) ℚ) : detExec 0 M = 1 := rfl

theorem detExec_succ (k : Nat) (M : Matrix (Fin (k + 1)) (Fin (k + 1)) ℚ) :
    detExec (k + 1) M =
      ∑ j : Fin (k + 1), (-1) ^ (j : ℕ) * M 0 j * detExec k (M.submatrix Fin.succ j.succAbove) :=
  rfl

/-- The executable Laplace expansion computes the determinant. -/
theorem detExec_eq_det : ∀ (k : Nat) (M : Matrix (Fin k) (Fin k) ℚ), detExec k M = M.det := by
  intro k
  induction k with
  | zero => intro M; rw [detExec_zero, Matrix.det_fin_zero]
  | succ k ih =>
    intro M
    rw [Matrix.det_succ_row_zero, detExec_succ]
    exact Finset.sum_congr rfl fun j _ => by rw [ih]

theorem upd2_apply (M : Mat) (i j : Nat) (x : ℚ) (a b : Nat) :
    upd2 M i j x a b = if a = i ∧ b = j then x else M a b := rfl

theorem addG_apply (M : Mat) (i j : Nat) (g : ℚ) (a b : Nat) :
    addG M i j g a b = M a b + (if a = i ∧ b = j then g else 0) := by
  unfold addG
  rw [upd2_apply]
  by_cases h : a = i ∧ b = j
  · obtain ⟨ha, hb⟩ := h
    subst ha; subst hb
    simp
  · simp [h]

theorem subG_apply (M : Mat) (i j : Nat) (g : ℚ) (a b : Nat) :
    subG M i j g a b = M a b - (if a = i ∧ b = j then g else 0) := by
  unfold subG
  rw [upd2_apply]
  by_cases h : a = i ∧ b = j
  · obtain ⟨ha, hb⟩ := h
    subst ha; subst hb
    simp
  · simp [h]

/-- Pointwise value of the resistor stamp. -/
theorem stampRmat_apply (nidx : Nat → Nat) (g : ℚ) (np nn : Nat) (M : Mat) (a b : Nat) :
    stampRmat nidx g np nn M a b =
      M a b + (if np ≠ 0 ∧ a = nidx np ∧ b = nidx np then g else 0)
        + (if nn ≠ 0 ∧ a = nidx nn ∧ b = nidx nn then g else 0)
        - (if np ≠ 0 ∧ nn ≠ 0 ∧ a = nidx np ∧ b = nidx nn then g else 0)
        - (if np ≠ 0 ∧ nn ≠ 0 ∧ a = nidx nn ∧ b = nidx np then g else 0) := by
  unfold stampRmat
  by_cases hp : np = 0 <;> by_cases hn : nn = 0 <;>
    simp [hp, hn, addG_apply, subG_apply]

/-- Pointwise value of the voltage-source stamp. -/
theorem stampVmat_apply (nidx : Nat → Nat) (np nn c0 : Nat) (M : Mat) (r c : Nat) :
    stampVmat nidx np nn c0 M r c =
      if nn ≠ 0 ∧ r = nidx nn ∧ c = c0 then -1
      else if np ≠ 0 ∧ r = nidx np ∧ c = c0 then 1
      else M r c := by
  unfold stampVmat
  by_cases hp : np = 0 <;> by_cases hn : nn = 0 <;>
    simp only [hp, hn, ne_eq, not_true_eq_false, not_false_eq_true, if_true, if_false,
      ite_false, ite_true, upd2_apply] <;> split_ifs <;> tauto

theorem stampElem_R (nidx : Nat → Nat) (st : Build) (e : Elemento)
    (hR : e.tipo = "R") (hv : e.val ≠ 0) :
    stampElem nidx st e =
      .ok { st with G := stampRmat nidx (1 / e.val) e.np e.nn st.G } := by
  simp [stampElem, hR, hv]

theorem stampElem_V (nidx : Nat → Nat) (st : Build) (e : Elemento) (hV : e.tipo = "V") :
    stampElem nidx st e =
      .ok { st with
        B := stampVmat nidx e.np e.nn st.idxv st.B
        E := Function.update st.E st.idxv e.val
        idxv := st.idxv + 1 } := by
  simp [stampElem, hV]

theorem stampElem_unknown (nidx : Nat → Nat) (st : Build) (e : Elemento)
    (h1 : e.tipo ≠ "R") (h2 : e.tipo ≠ "V") :
    stampElem nidx st e = .error (.unknownKind e.tipo) := by
  simp [stampElem, h1, h2]

/-- Processing one element adds exactly the specified conductance
contribution to every entry of `G`. -/
theorem stampElem_ok_G (nidx : Nat → Nat) (st st' : Build) (e : Elemento)
    (h : stampElem nidx st e = .ok st') (a b : Nat) :
    st'.G a b = st.G a b + stampRSpec nidx e a b := by
  by_cases hR : e.tipo = "R"
  · by_cases hv : e.val = 0
    · simp [stampElem, hR, hv] at h
    · rw [stampElem_R nidx st e hR hv] at h
      cases h
      simp only [stampRSpec, hR, if_true, ite_true, stampRmat_apply]
      ring
  · by_cases hV : e.tipo = "V"
    · rw [stampElem_V nidx st e hV] at h
      cases h
      simp [stampRSpec, hR]
    · rw [stampElem_unknown nidx st e hR hV] at h
      cases h

/-- A successful step never touches `B`, `E` or `idx_v` unless the element is
a voltage source. -/
theorem stampElem_ok_nonV (nidx : Nat → Nat) (st st' : Build) (e : Elemento)
    (h : stampElem nidx st e = .ok st') (hV : e.tipo ≠ "V") :
    st'.B = st.B ∧ st'.E = st.E ∧ st'.idxv = st.idxv := by
  by_cases hR : e.tipo = "R"
  · by_cases hv : e.val = 0
    · simp [stampElem, hR, hv] at h
    · rw [stampElem_R nidx st e hR hv] at h
      cases h
      exact ⟨rfl, rfl, rfl⟩
  · rw [stampElem_unknown nidx st e hR hV] at h
    cases h

end MNA

namespace MNA

theorem foldlM_cons_except (f : Build → Elemento → Except MNAError Build) (b : Build)
    (a : Elemento) (l : List Elemento) :
    List.foldlM f b (a :: l) = f b a >>= fun b2 => List.foldlM f b2 l := rfl

theorem except_bind_ok {α β γ : Type} (a : α) (f : α → Except γ β) :
    ((Except.ok a : Except γ α) >>= f) = f a := rfl

theorem except_bind_error {α β γ : Type} (err : γ) (f : α → Except γ β) :
    ((Except.error err : Except γ α) >>= f) = Except.error err := rfl

/-- The assembly loop accumulates exactly the sum of the per-element
conductance contributions into `G`. -/
theorem foldl_stamp_G (nidx : Nat → Nat) :
    ∀ (l : List Elemento) (st0 st : Build),
      List.foldlM (stampElem nidx) st0 l = .ok st → ∀ a b,
        st.G a b = st0.G a b + (l.map (fun e => stampRSpec nidx e a b)).sum := by
  intro l
  induction l with
  | nil =>
    intro st0 st h a b
    cases h
    simp
  | cons e l ih =>
    intro st0 st h a b
    rw [foldlM_cons_except] at h
    cases hse : stampElem nidx st0 e with
    | error err =>
      rw [hse, except_bind_error] at h
      exact Except.noConfusion h
    | ok st1 =>
      rw [hse, except_bind_ok] at h
      rw [ih st1 st h a b, stampElem_ok_G nidx st0 st1 e hse a b]
      rw [List.map_cons, List.sum_cons]
      ring

/-- Whole-loop version of `foldl_stamp_G`, starting from the zero state. -/
theorem buildMats_G (nidx : Nat → Nat) (elementos : List Elemento) (st : Build)
    (h : buildMats nidx elementos = .ok st) (a b : Nat) :
    st.G a b = (elementos.map (fun e => stampRSpec nidx e a b)).sum := by
  have h2 := foldl_stamp_G nidx elementos build0 st h a b
  rw [h2]
  simp [build0]

theorem mem_insNodo (x y : Nat) (l : List Nat) : x ∈ insNodo y l ↔ x = y ∨ x ∈ l := by
  induction l with
  | nil => simp [insNodo]
  | cons z zs ih =>
    unfold insNodo
    split_ifs with h1 h2
    · simp
    · subst h2
      simp [List.mem_cons]
    · simp [List.mem_cons, ih]
      tauto

theorem mem_sortNodos (x : Nat) (l : List Nat) : x ∈ sortNodos l ↔ x ∈ l := by
  induction l with
  | nil => simp [sortNodos]
  | cons a l ih =>
    show x ∈ insNodo a (sortNodos l) ↔ _
    rw [mem_insNodo, ih, List.mem_cons]

/-- Membership in the non-ground node list. -/
theorem mem_nodosDe (x : Nat) (elementos : List Elemento) :
    x ∈ nodosDe elementos ↔ x ≠ 0 ∧ ∃ e ∈ elementos, e.np = x ∨ e.nn = x := by
  unfold nodosDe
  rw [mem_sortNodos, List.mem_filter]
  simp only [List.mem_append, List.mem_map, decide_eq_true_eq]
  constructor
  · rintro ⟨hmem, hx⟩
    refine ⟨hx, ?_⟩
    rcases hmem with ⟨e, he, hnp⟩ | ⟨e, he, hnn⟩
    · exact ⟨e, he, Or.inl hnp⟩
    · exact ⟨e, he, Or.inr hnn⟩
  · rintro ⟨hx, e, he, hnp | hnn⟩
    · exact ⟨Or.inl ⟨e, he, hnp⟩, hx⟩
    · exact ⟨Or.inr ⟨e, he, hnn⟩, hx⟩

/-- If every terminal is ground, there are no non-ground nodes. -/
theorem nodosDe_nil (elementos : List Elemento)
    (h : ∀ e ∈ elementos, e.np = 0 ∧ e.nn = 0) : nodosDe elementos = [] := by
  cases hn : nodosDe elementos with
  | nil => rfl
  | cons a l =>
    exfalso
    have ha : a ∈ nodosDe elementos := by rw [hn]; exact List.mem_cons_self a l
    rw [mem_nodosDe] at ha
    obtain ⟨ha0, e, he, hterm⟩ := ha
    rcases hterm with h1 | h1 <;> [exact ha0 (h1 ▸ (h e he).1); exact ha0 (h1 ▸ (h e he).2)]

/-- A non-ground terminal guarantees a nonempty node list. -/
theorem nodosDe_ne_nil (elementos : List Elemento) (e : Elemento) (he : e ∈ elementos)
    (hx : e.np ≠ 0 ∨ e.nn ≠ 0) : nodosDe elementos ≠ [] := by
  rcases hx with hx | hx
  · exact List.ne_nil_of_mem ((mem_nodosDe e.np elementos).mpr ⟨hx, e, he, Or.inl rfl⟩)
  · exact List.ne_nil_of_mem ((mem_nodosDe e.nn elementos).mpr ⟨hx, e, he, Or.inr rfl⟩)

/-- Unfolding of the solver once assembly succeeded and `n ≠ 0`. -/
theorem run_build (elementos : List Elemento) (st : Build)
    (hb : buildMats (nodo_index (nodosDe elementos)) elementos = .ok st)
    (hn : (nodosDe elementos).length ≠ 0) :
    construir_y_resolver elementos =
      match solveLin ((nodosDe elementos).length + (fuentesDe elementos).length)
          (armarA (nodosDe elementos).length (fuentesDe elementos).length st)
          (armarZ (nodosDe elementos).length st) with
      | none => .error .singular
      | some x =>
        .ok (resultadoDe elementos (nodosDe elementos) (fuentesDe elementos).length
          (liftX ((nodosDe elementos).length + (fuentesDe elementos).length) x)) := by
  unfold construir_y_resolver
  rw [hb]
  simp [hn]

/-- Unfolding of the solver in the trivial `n = 0` case. -/
theorem run_trivial (elementos : List Elemento) (st : Build)
    (hb : buildMats (nodo_index (nodosDe elementos)) elementos = .ok st)
    (hn : (nodosDe elementos).length = 0) :
    construir_y_resolver elementos =
      if 0 < (fuentesDe elementos).length then .error .singular
      else .ok ⟨[], [], [], [], []⟩ := by
  unfold construir_y_resolver
  rw [hb]
  simp [hn]

/-- An assembly error propagates unchanged. -/
theorem run_error (elementos : List Elemento) (err : MNAError)
    (hb : buildMats (nodo_index (nodosDe elementos)) elementos = .error err) :
    construir_y_resolver elementos = .error err := by
  unfold construir_y_resolver
  rw [hb]

/-- Any successful run is either the trivial empty answer (no non-ground
nodes) or the post-processed solution of the augmented system. -/
theorem run_ok_cases (elementos : List Elemento) (r : Resultado)
    (h : construir_y_resolver elementos = .ok r) :
    (r = ⟨[], [], [], [], []⟩ ∧ nodosDe elementos = []) ∨
    (nodosDe elementos ≠ [] ∧ ∃ x : Nat → ℚ,
      r = resultadoDe elementos (nodosDe elementos) (fuentesDe elementos).length x) := by
  cases hb : buildMats (nodo_index (nodosDe elementos)) elementos with
  | error err =>
    rw [run_error elementos err hb] at h
    exact Except.noConfusion h
  | ok st =>
    by_cases hn : (nodosDe elementos).length = 0
    · by_cases hm : 0 < (fuentesDe elementos).length
      · rw [run_trivial elementos st hb hn, if_pos hm] at h
        exact Except.noConfusion h
      · rw [run_trivial elementos st hb hn, if_neg hm] at h
        left
        injection h with h2
        exact ⟨h2.symm, List.length_eq_zero.mp hn⟩
    · rw [run_build elementos st hb hn] at h
      right
      refine ⟨fun hnil => hn (by rw [hnil]; rfl), ?_⟩
      split at h
      · exact Except.noConfusion h
      · injection h with h2
        exact ⟨_, h2.symm⟩

/-- The reporting loop over resistors, as a map over the resistor sublist. -/
theorem filterMap_if_R (l : List Elemento) (f : Elemento → ℚ) :
    (l.filterMap (fun e => if e.tipo = "R" then some (f e) else none)) =
      (l.filter (fun e => e.tipo = "R")).map f := by
  induction l with
  | nil => rfl
  | cons e l ih =>
    by_cases h : e.tipo = "R" <;> simp [List.filterMap_cons, List.filter_cons, h, ih]

end MNA

namespace MNA

theorem BInv_nil (nidx : Nat → Nat) : BInv nidx [] build0 :=
  ⟨rfl, fun _ _ => rfl, fun _ => rfl⟩

/-- One assembly step preserves the incidence invariant, extending the source
list exactly when the element is a voltage source. -/
theorem stampElem_BInv (nidx : Nat → Nat) (srcs : List Elemento) (st st' : Build) (e : Elemento)
    (hinv : BInv nidx srcs st) (hse : stampElem nidx st e = .ok st') :
    BInv nidx (srcs ++ if e.tipo = "V" then [e] else []) st' := by
  obtain ⟨hidx, hB, hE⟩ := hinv
  by_cases hV : e.tipo = "V"
  · rw [stampElem_V nidx st e hV] at hse
    cases hse
    rw [if_pos hV]
    refine ⟨by simp [hidx], ?_, ?_⟩
    · intro r c
      show stampVmat nidx e.np e.nn st.idxv st.B r c = _
      rw [stampVmat_apply]
      by_cases hc : c = st.idxv
      · subst hc
        rw [hidx, List.get?_concat_length]
        have hz : st.B r srcs.length = 0 := by
          rw [hB r srcs.length, List.get?_eq_none.mpr (Nat.le_refl _)]
        simp [colB, hidx, hz]
      · rcases Nat.lt_or_ge c st.idxv with hlt | hge
        · rw [if_neg (by tauto), if_neg (by tauto), hB r c,
            List.get?_append (hidx ▸ hlt)]
        · have hgt : srcs.length < c := by omega
          rw [if_neg (by tauto), if_neg (by tauto), hB r c,
            List.get?_eq_none.mpr (by omega), List.get?_eq_none.mpr (by simp; omega)]
    · intro c
      show Function.update st.E st.idxv e.val c = _
      rw [Function.update_apply]
      by_cases hc : c = st.idxv
      · subst hc
        rw [if_pos rfl, hidx, List.get?_concat_length]
      · rw [if_neg hc, hE c]
        rcases Nat.lt_or_ge c st.idxv with hlt | hge
        · rw [List.get?_append (hidx ▸ hlt)]
        · have hgt : srcs.length < c := by omega
          rw [List.get?_eq_none.mpr (by omega), List.get?_eq_none.mpr (by simp; omega)]
  · have hBE := stampElem_ok_nonV nidx st st' e hse hV
    rw [if_neg hV, List.append_nil]
    exact ⟨hBE.2.2.trans hidx, fun r c => (congrFun (congrFun hBE.1 r) c).trans (hB r c),
      fun c => (congrFun hBE.2.1 c).trans (hE c)⟩

/-- The assembly loop builds exactly the incidence data of the source
sublist. -/
theorem foldl_BInv (nidx : Nat → Nat) :
    ∀ (l : List Elemento) (srcs : List Elemento) (st0 st : Build),
      BInv nidx srcs st0 → List.foldlM (stampElem nidx) st0 l = .ok st →
      BInv nidx (srcs ++ l.filter (fun e => e.tipo = "V")) st := by
  intro l
  induction l with
  | nil =>
    intro srcs st0 st hinv h
    cases h
    simpa using hinv
  | cons e l ih =>
    intro srcs st0 st hinv h
    rw [foldlM_cons_except] at h
    cases hse : stampElem nidx st0 e with
    | error err =>
      rw [hse, except_bind_error] at h
      exact Except.noConfusion h
    | ok st1 =>
      rw [hse, except_bind_ok] at h
      have h2 := ih _ st1 st (stampElem_BInv nidx srcs st0 st1 e hinv hse) h
      have h3 : (if e.tipo = "V" then [e] else []) ++ l.filter (fun e => e.tipo = "V") =
          (e :: l).filter (fun e => e.tipo = "V") := by
        by_cases hV : e.tipo = "V" <;> simp [List.filter_cons, hV]
      rwa [List.append_assoc, h3] at h2

/-- Whole-loop version of the incidence invariant. -/
theorem buildMats_BInv (nidx : Nat → Nat) (elementos : List Elemento) (st : Build)
    (h : buildMats nidx elementos = .ok st) : BInv nidx (fuentesDe elementos) st := by
  have h2 := foldl_BInv nidx elementos [] build0 st (BInv_nil nidx) h
  simpa [fuentesDe] using h2

theorem stampElem_wf_ok (nidx : Nat → Nat) (st : Build) (e : Elemento) (hwf : wfElem e) :
    ∃ st', stampElem nidx st e = .ok st' := by
  rcases hwf with ⟨hR, hv⟩ | hV
  · exact ⟨_, stampElem_R nidx st e hR hv⟩
  · exact ⟨_, stampElem_V nidx st e hV⟩

theorem foldl_wf_ok (nidx : Nat → Nat) :
    ∀ (l : List Elemento) (st0 : Build), (∀ e ∈ l, wfElem e) →
      ∃ st, List.foldlM (stampElem nidx) st0 l = .ok st := by
  intro l
  induction l with
  | nil => exact fun st0 _ => ⟨st0, rfl⟩
  | cons e l ih =>
    intro st0 hwf
    obtain ⟨st1, hse⟩ := stampElem_wf_ok nidx st0 e (hwf e (List.mem_cons_self e l))
    obtain ⟨st, hfold⟩ := ih st1 (fun e2 he2 => hwf e2 (List.mem_cons_of_mem e he2))
    exact ⟨st, by rw [foldlM_cons_except, hse, except_bind_ok]; exact hfold⟩

/-- A well-formed circuit always assembles. -/
theorem buildMats_wf_ok (nidx : Nat → Nat) (elementos : List Elemento)
    (hwf : ∀ e ∈ elementos, wfElem e) :
    ∃ st, buildMats nidx elementos = .ok st :=
  foldl_wf_ok nidx elementos build0 hwf

/-- An element of unknown kind makes the assembly loop fail with the
unknown-kind error (provided no earlier zero-resistance fault fires). -/
theorem foldl_unknown (nidx : Nat → Nat) :
    ∀ (l : List Elemento) (st0 : Build),
      (∀ e ∈ l, e.tipo = "R" → e.val ≠ 0) →
      (∃ e ∈ l, e.tipo ≠ "R" ∧ e.tipo ≠ "V") →
      ∃ t, List.foldlM (stampElem nidx) st0 l = .error (.unknownKind t) := by
  intro l
  induction l with
  | nil =>
    intro st0 _ hex
    obtain ⟨e, he, _⟩ := hex
    exact absurd he (List.not_mem_nil e)
  | cons e l ih =>
    intro st0 hvals hex
    by_cases he : e.tipo ≠ "R" ∧ e.tipo ≠ "V"
    · exact ⟨e.tipo, by
        rw [foldlM_cons_except, stampElem_unknown nidx st0 e he.1 he.2, except_bind_error]⟩
    · have hwf : wfElem e := by
        rcases not_and_or.mp he with h | h
        · exact Or.inl ⟨not_not.mp h, hvals e (List.mem_cons_self e l) (not_not.mp h)⟩
        · exact Or.inr (not_not.mp h)
      obtain ⟨st1, hse⟩ := stampElem_wf_ok nidx st0 e hwf
      have hex2 : ∃ e2 ∈ l, e2.tipo ≠ "R" ∧ e2.tipo ≠ "V" := by
        obtain ⟨e2, he2, hu⟩ := hex
        rcases List.mem_cons.mp he2 with rfl | he2
        · exact absurd hu he
        · exact ⟨e2, he2, hu⟩
      obtain ⟨t, hfold⟩ := ih st1 (fun e2 he2 => hvals e2 (List.mem_cons_of_mem e he2)) hex2
      exact ⟨t, by rw [foldlM_cons_except, hse, except_bind_ok]; exact hfold⟩

end MNA

namespace MNA

/-- A matrix with one row the negation of another has zero determinant. -/
theorem det_zero_of_row_neg {k : Nat} (M : Matrix (Fin k) (Fin k) ℚ) (fi fj : Fin k)
    (hne : fi ≠ fj) (h : M fi = -M fj) : M.det = 0 := by
  have h2 := Matrix.det_updateRow_add_smul_self M hne (1 : ℚ)
  rw [← h2]
  apply Matrix.det_eq_zero_of_row_eq_zero fi
  intro c
  rw [Matrix.updateRow_self]
  rw [h]
  simp

theorem solveLin_none {k : Nat} (A : Matrix (Fin k) (Fin k) ℚ) (z : Fin k → ℚ)
    (h : detExec k A = 0) : solveLin k A z = none := by
  unfold solveLin
  rw [if_pos h]

/-- Rows of the augmented matrix below the conductance block read off the
transposed incidence matrix. -/
theorem armarA_apply_bottom (n m : Nat) (st : Build) (i : Fin (n + m)) (hi : n ≤ (i : ℕ))
    (c : Fin (n + m)) :
    armarA n m st i c = if (c : ℕ) < n then st.B (c : ℕ) ((i : ℕ) - n) else 0 := by
  unfold armarA
  rw [if_neg (Nat.not_lt.mpr hi)]

/-- Swapping the two terminals of a source yields either the same incidence
column or its negation. -/
theorem colB_swap (nidx : Nat → Nat) (e1 e2 : Elemento)
    (hp : e1.np = e2.nn) (hn : e1.nn = e2.np) :
    (∀ r, colB nidx e2 r = colB nidx e1 r) ∨ (∀ r, colB nidx e2 r = -colB nidx e1 r) := by
  have hB : ∀ r, colB nidx e2 r =
      (if e1.np ≠ 0 ∧ r = nidx e1.np then -1
       else if e1.nn ≠ 0 ∧ r = nidx e1.nn then 1 else 0 : ℚ) := by
    intro r
    unfold colB
    rw [← hp, ← hn]
  by_cases hp0 : e1.np = 0
  · by_cases hq0 : e1.nn = 0
    · left
      intro r
      rw [hB r]
      unfold colB
      simp [hp0, hq0]
    · right
      intro r
      rw [hB r]
      unfold colB
      by_cases hr : r = nidx e1.nn <;> simp [hp0, hq0, hr]
  · by_cases hq0 : e1.nn = 0
    · right
      intro r
      rw [hB r]
      unfold colB
      by_cases hr : r = nidx e1.np <;> simp [hp0, hq0, hr]
    · by_cases hix : nidx e1.np = nidx e1.nn
      · left
        intro r
        rw [hB r]
        unfold colB
        by_cases hr : r = nidx e1.nn <;> simp [hp0, hq0, hix, hr]
      · right
        intro r
        rw [hB r]
        unfold colB
        by_cases hr1 : r = nidx e1.np <;> by_cases hr2 : r = nidx e1.nn
        · exact absurd (hr1.symm.trans hr2) hix
        · simp [hp0, hq0, hr1, hr2, hix]
        · simp [hp0, hq0, hr1, hr2, hix, Ne.symm hix]
        · simp [hp0, hq0, hr1, hr2]

/-- Two voltage sources across the same node pair (in either orientation)
make the augmented MNA matrix exactly singular: the two corresponding
constraint rows are equal or opposite. -/
theorem armarA_singular (n m : Nat) (st : Build) (nidx : Nat → Nat)
    (srcs : List Elemento) (hinv : BInv nidx srcs st)
    (i j : Nat) (hij : i < j) (hj : j < m) (e1 e2 : Elemento)
    (h1 : srcs.get? i = some e1) (h2 : srcs.get? j = some e2)
    (hpar : (e1.np = e2.np ∧ e1.nn = e2.nn) ∨ (e1.np = e2.nn ∧ e1.nn = e2.np)) :
    detExec (n + m) (armarA n m st) = 0 := by
  rw [detExec_eq_det]
  have hfi : n + i < n + m := by omega
  have hfj : n + j < n + m := by omega
  have hne : (⟨n + i, hfi⟩ : Fin (n + m)) ≠ ⟨n + j, hfj⟩ := by
    simp only [ne_eq, Fin.mk.injEq]
    omega
  have hrow : ∀ (t : Nat) (ht : n + t < n + m) (e : Elemento), srcs.get? t = some e →
      ∀ c : Fin (n + m), armarA n m st ⟨n + t, ht⟩ c =
        (if (c : ℕ) < n then colB nidx e (c : ℕ) else 0) := by
    intro t ht e hget c
    rw [armarA_apply_bottom n m st ⟨n + t, ht⟩ (Nat.le_add_right n t) c]
    by_cases hcn : (c : ℕ) < n
    · rw [if_pos hcn, if_pos hcn]
      show st.B (c : ℕ) (n + t - n) = _
      rw [Nat.add_sub_cancel_left, hinv.2.1 (c : ℕ) t, hget]
    · rw [if_neg hcn, if_neg hcn]
  rcases hpar with hl | hr
  · apply Matrix.det_zero_of_row_eq hne
    funext c
    rw [hrow i hfi e1 h1 c, hrow j hfj e2 h2 c]
    have hcol : colB nidx e2 (c : ℕ) = colB nidx e1 (c : ℕ) := by
      unfold colB
      rw [← hl.1, ← hl.2]
    rw [hcol]
  · rcases colB_swap nidx e1 e2 hr.1 hr.2 with hsame | hneg
    · apply Matrix.det_zero_of_row_eq hne
      funext c
      rw [hrow i hfi e1 h1 c, hrow j hfj e2 h2 c, hsame (c : ℕ)]
    · apply det_zero_of_row_neg _ _ _ hne
      funext c
      rw [Pi.neg_apply, hrow i hfi e1 h1 c, hrow j hfj e2 h2 c]
      by_cases hcn : (c : ℕ) < n
      · rw [if_pos hcn, if_pos hcn]
        rw [hneg (c : ℕ)]
        ring
      · rw [if_neg hcn, if_neg hcn]
        ring

end MNA

namespace MNA

/-! ## The claims -/

/-- C1: solving the circuit `[Resistor(1, 0, 1000), VoltageSource(1, 0, 5)]`
succeeds and returns the node-voltage map `{0: 0.0, 1: 5.0}`, the single
source current `-0.005 A`, the single resistor current `0.005 A` and the
single resistor power `0.025 W` — exactly, in the rational idealization. -/
theorem C1_circuito_ejemplo :
    construir_y_resolver circuitoEjemplo = .ok resEjemplo := by
  decide

/-- C2, counterexample: a single voltage source with both terminals tied to
the same non-ground node does NOT raise `SingularCircuit`; the solver
succeeds, assigning that node the negated source voltage (the second `B`
write overwrites the first, so the augmented matrix is invertible). -/
theorem C2_contraejemplo_autolazo :
    construir_y_resolver [⟨"V", 1, 1, 5⟩] =
      .ok ⟨[1], [(0, 0), (1, -5)], [0], [], []⟩ := by
  decide

/-- C2, amended: in any well-formed circuit, two voltage sources connected
across the same node pair (in either orientation, with different values —
the values are in fact irrelevant) make the solver fail with
`SingularCircuit`; the self-loop half of the original claim is false, per
`C2_contraejemplo_autolazo`. -/
theorem C2_fuentes_duplicadas (elementos : List Elemento) (i j : Nat) (e1 e2 : Elemento)
    (hwf : ∀ e ∈ elementos, wfElem e) (hij : i < j)
    (h1 : (fuentesDe elementos).get? i = some e1)
    (h2 : (fuentesDe elementos).get? j = some e2)
    (hpar : (e1.np = e2.np ∧ e1.nn = e2.nn) ∨ (e1.np = e2.nn ∧ e1.nn = e2.np))
    (_hval : e1.val ≠ e2.val) :
    construir_y_resolver elementos = .error .singular := by
  obtain ⟨st, hb⟩ := buildMats_wf_ok (nodo_index (nodosDe elementos)) elementos hwf
  have hj : j < (fuentesDe elementos).length := by
    by_contra hcon
    rw [List.get?_eq_none.mpr (Nat.le_of_not_lt hcon)] at h2
    exact Option.noConfusion h2
  by_cases hn : (nodosDe elementos).length = 0
  · rw [run_trivial elementos st hb hn, if_pos (by omega)]
  · rw [run_build elementos st hb hn,
      solveLin_none _ _ (armarA_singular (nodosDe elementos).length
        (fuentesDe elementos).length st (nodo_index (nodosDe elementos))
        (fuentesDe elementos) (buildMats_BInv _ _ _ hb) i j hij hj e1 e2 h1 h2 hpar)]

/-- C2, witness: two 5 V and 3 V sources both wired from node 1 to ground
are rejected as singular. -/
theorem C2_testigo :
    construir_y_resolver [⟨"V", 1, 0, 5⟩, ⟨"V", 1, 0, 3⟩] = .error .singular :=
  C2_fuentes_duplicadas [⟨"V", 1, 0, 5⟩, ⟨"V", 1, 0, 3⟩] 0 1 ⟨"V", 1, 0, 5⟩ ⟨"V", 1, 0, 3⟩
    (by decide) (by decide) rfl rfl (Or.inl ⟨rfl, rfl⟩) (by decide)

/-- C3, counterexample: solving the empty circuit succeeds but returns an
EMPTY node-voltage map — the key 0 (ground) is absent, contradicting the
claim that every successful solve maps ground to 0.0. -/
theorem C3_contraejemplo_vacio :
    Except.map (fun r : Resultado => List.lookup 0 r.Vn) (construir_y_resolver []) =
      .ok none := by
  decide

/-- C3, amended: whenever the solve succeeds AND the circuit references at
least one non-ground node, the returned node-voltage map has the entry
`0 ↦ 0.0`, and that entry is the head of the map — placed by construction,
never obtained from the linear solve. In the degenerate success (`n = 0`)
the map is empty instead. -/
theorem C3_tierra_en_exitos (elementos : List Elemento) (r : Resultado)
    (h : construir_y_resolver elementos = .ok r) (hn : nodosDe elementos ≠ []) :
    List.lookup 0 r.Vn = some 0 ∧ r.Vn.head? = some (0, 0) := by
  rcases run_ok_cases elementos r h with ⟨_, hnil⟩ | ⟨_, x, hr⟩
  · exact absurd hnil hn
  · subst hr
    exact ⟨rfl, rfl⟩

/-- C3, witness: a 2 V source from node 1 to ground. -/
theorem C3_testigo :
    List.lookup 0 (⟨[1], [(0, 0), (1, 2)], [0], [], []⟩ : Resultado).Vn = some 0 ∧
    (⟨[1], [(0, 0), (1, 2)], [0], [], []⟩ : Resultado).Vn.head? = some (0, 0) :=
  C3_tierra_en_exitos [⟨"V", 1, 0, 2⟩] ⟨[1], [(0, 0), (1, 2)], [0], [], []⟩
    (by decide) (by decide)

/-- C4: on an already-trimmed input, `convertir_valor` fails with
`InvalidValue` on the empty string; if the last character carries an SI
multiplier it returns the prefix parsed as a float times that multiplier
(failing with `InvalidValue` when the prefix is not numeric); otherwise it
returns the whole string parsed as a float (failing with `InvalidValue` when
it is not numeric). -/
theorem C4_convertir_valor (s : String) (hs : trimChars s.toList = s.toList) :
    (s.toList = [] → convertir_valor s = .error .invalidValue) ∧
    (∀ c q, s.toList.getLast? = some c → multiplicadores c = some q →
      convertir_valor s =
        (match pyFloat s.toList.dropLast with
         | some num => .ok (num * q)
         | none => .error .invalidValue)) ∧
    (∀ c, s.toList.getLast? = some c → multiplicadores c = none →
      convertir_valor s =
        (match pyFloat s.toList with
         | some num => .ok num
         | none => .error .invalidValue)) := by
  refine ⟨?_, ?_, ?_⟩
  · intro h
    simp only [convertir_valor, hs, h]
    rfl
  · intro c q hc hq
    simp only [convertir_valor, hs, hc, hq]
  · intro c hc hq
    simp only [convertir_valor, hs, hc, hq]

/-- C4, witness: `"2k"` parses to `2000`. -/
theorem C4_testigo : convertir_valor "2k" = .ok 2000 := by
  have h := (C4_convertir_valor "2k" (by decide)).2.1 'k' 1000 (by decide) (by decide)
  rw [h]
  decide

/-- C5: the conductance matrix assembled for a circuit is, entry by entry,
exactly the sum over the elements of the specified resistor stamp: `1/val`
on the diagonal for each non-ground terminal, `-1/val` symmetrically when
both terminals are non-ground, and nothing for voltage sources or for a
resistor with both terminals at ground. -/
theorem C5_sello_conductancias (elementos : List Elemento) (st : Build)
    (h : buildMats (nodo_index (nodosDe elementos)) elementos = .ok st) (i j : Nat) :
    st.G i j =
      (elementos.map (fun e => stampRSpec (nodo_index (nodosDe elementos)) e i j)).sum :=
  buildMats_G (nodo_index (nodosDe elementos)) elementos st h i j

/-- C5, witness: the diagonal entry of the example circuit's conductance
matrix matches the stamp sum. -/
theorem C5_testigo :
    stEjemplo.G 0 0 =
      (circuitoEjemplo.map
        (fun e => stampRSpec (nodo_index (nodosDe circuitoEjemplo)) e 0 0)).sum :=
  C5_sello_conductancias circuitoEjemplo stEjemplo rfl 0 0

/-- C6, counterexample: the circuit `[Resistor(0, 0, 1)]` (one resistor, both
terminals at ground) solves successfully, yet the reported resistor-current
and resistor-power lists are EMPTY — no current is reported for the resistor,
contradicting the claim that every resistor of a successfully solved circuit
gets a reported current. -/
theorem C6_contraejemplo_trivial :
    construir_y_resolver [⟨"R", 0, 0, 1⟩] = .ok ⟨[], [], [], [], []⟩ ∧
    (([(⟨"R", 0, 0, 1⟩ : Elemento)]).filter (fun e => e.tipo = "R")).length = 1 := by
  constructor
  · decide
  · decide

/-- C6, amended: for every circuit that references at least one non-ground
node and solves successfully (with positive resistances per the data model),
the reported currents are exactly `(V+ - V-) / R` per resistor in sequence
order, the reported powers are exactly `I * I * R`, and every reported power
is nonnegative. (For the degenerate `n = 0` success the reported lists are
empty instead, per `C6_contraejemplo_trivial`.) -/
theorem C6_corrientes_potencias (elementos : List Elemento) (r : Resultado)
    (h : construir_y_resolver elementos = .ok r) (hn : nodosDe elementos ≠ [])
    (hpos : ∀ e ∈ elementos, e.tipo = "R" → 0 < e.val) :
    r.corriente_resistencias =
      (elementos.filter (fun e => e.tipo = "R")).map
        (fun e => (vnGet r.Vn e.np - vnGet r.Vn e.nn) / e.val) ∧
    r.potencias_resistencias =
      (elementos.filter (fun e => e.tipo = "R")).map
        (fun e => ((vnGet r.Vn e.np - vnGet r.Vn e.nn) / e.val) *
          ((vnGet r.Vn e.np - vnGet r.Vn e.nn) / e.val) * e.val) ∧
    (∀ p ∈ r.potencias_resistencias, 0 ≤ p) := by
  rcases run_ok_cases elementos r h with ⟨_, hnil⟩ | ⟨_, x, hr⟩
  · exact absurd hnil hn
  · subst hr
    have hcur : (resultadoDe elementos (nodosDe elementos) (fuentesDe elementos).length
        x).corriente_resistencias =
        (elementos.filter (fun e => e.tipo = "R")).map
          (fun e => (vnGet (vnOf (nodosDe elementos) x) e.np -
            vnGet (vnOf (nodosDe elementos) x) e.nn) / e.val) := by
      show elementos.filterMap _ = _
      rw [filterMap_if_R elementos (fun e => corrienteR (vnOf (nodosDe elementos) x) e)]
      rfl
    have hpow : (resultadoDe elementos (nodosDe elementos) (fuentesDe elementos).length
        x).potencias_resistencias =
        (elementos.filter (fun e => e.tipo = "R")).map
          (fun e => ((vnGet (vnOf (nodosDe elementos) x) e.np -
              vnGet (vnOf (nodosDe elementos) x) e.nn) / e.val) *
            ((vnGet (vnOf (nodosDe elementos) x) e.np -
              vnGet (vnOf (nodosDe elementos) x) e.nn) / e.val) * e.val) := by
      show elementos.filterMap _ = _
      rw [filterMap_if_R elementos (fun e => corrienteR (vnOf (nodosDe elementos) x) e *
        corrienteR (vnOf (nodosDe elementos) x) e * e.val)]
      rfl
    refine ⟨hcur, hpow, ?_⟩
    intro p hp
    rw [hpow] at hp
    obtain ⟨e, he, hpe⟩ := List.mem_map.mp hp
    have heR := List.mem_filter.mp he
    have hv : 0 < e.val := hpos e heR.1 (by simpa using heR.2)
    rw [← hpe]
    exact mul_nonneg (mul_self_nonneg _) hv.le

/-- C6, witness: the example circuit's reported current and power lists
match the per-resistor formulas. -/
theorem C6_testigo :
    resEjemplo.corriente_resistencias =
      (circuitoEjemplo.filter (fun e => e.tipo = "R")).map
        (fun e => (vnGet resEjemplo.Vn e.np - vnGet resEjemplo.Vn e.nn) / e.val) ∧
    resEjemplo.potencias_resistencias =
      (circuitoEjemplo.filter (fun e => e.tipo = "R")).map
        (fun e => ((vnGet resEjemplo.Vn e.np - vnGet resEjemplo.Vn e.nn) / e.val) *
          ((vnGet resEjemplo.Vn e.np - vnGet resEjemplo.Vn e.nn) / e.val) * e.val) :=
  ⟨(C6_corrientes_potencias circuitoEjemplo resEjemplo (by decide) (by decide) (by decide)).1,
   (C6_corrientes_potencias circuitoEjemplo resEjemplo (by decide) (by decide) (by decide)).2.1⟩

/-- C7: for a well-formed circuit all of whose component terminals are at
ground (so no non-ground node is referenced): if it contains a voltage
source the solver fails with `SingularCircuit`; if it contains none (in
particular the empty circuit) the solver succeeds with all-empty outputs. -/
theorem C7_sin_nodos (elementos : List Elemento)
    (hwf : ∀ e ∈ elementos, wfElem e)
    (hg : ∀ e ∈ elementos, e.np = 0 ∧ e.nn = 0) :
    ((∃ e ∈ elementos, e.tipo = "V") → construir_y_resolver elementos = .error .singular) ∧
    ((∀ e ∈ elementos, e.tipo ≠ "V") →
      construir_y_resolver elementos = .ok ⟨[], [], [], [], []⟩) := by
  obtain ⟨st, hb⟩ := buildMats_wf_ok (nodo_index (nodosDe elementos)) elementos hwf
  have hn0 : (nodosDe elementos).length = 0 := by rw [nodosDe_nil elementos hg]; rfl
  constructor
  · rintro ⟨e, he, hV⟩
    have hm : 0 < (fuentesDe elementos).length :=
      List.length_pos.mpr (List.ne_nil_of_mem (List.mem_filter.mpr ⟨he, by simp [hV]⟩))
    rw [run_trivial elementos st hb hn0, if_pos hm]
  · intro hnoV
    have hm : (fuentesDe elementos).length = 0 := by
      rw [List.length_eq_zero]
      exact List.filter_eq_nil.mpr (fun e he => by simp [hnoV e he])
    rw [run_trivial elementos st hb hn0, if_neg (by omega)]

/-- C7, witness: a single 5 V source from ground to ground is singular. -/
theorem C7_testigo : construir_y_resolver [⟨"V", 0, 0, 5⟩] = .error .singular :=
  (C7_sin_nodos [⟨"V", 0, 0, 5⟩] (by decide) (by decide)).1
    ⟨⟨"V", 0, 0, 5⟩, by decide, rfl⟩

/-- C9: whenever a circuit references at least one non-ground node and the
solve succeeds, the returned node-voltage map contains the entry `0 ↦ 0.0` —
ground is inserted unconditionally, whether or not node 0 is a terminal of
any component. -/
theorem C9_tierra_incondicional (elementos : List Elemento) (r : Resultado)
    (h : construir_y_resolver elementos = .ok r)
    (href : ∃ e ∈ elementos, e.np ≠ 0 ∨ e.nn ≠ 0) :
    List.lookup 0 r.Vn = some 0 := by
  obtain ⟨e, he, hx⟩ := href
  rcases run_ok_cases elementos r h with ⟨_, hnil⟩ | ⟨_, x, hr⟩
  · exact absurd hnil (nodosDe_ne_nil elementos e he hx)
  · subst hr
    rfl

/-- C9, witness: a 3 V source from node 2 to ground. -/
theorem C9_testigo :
    List.lookup 0 (⟨[2], [(0, 0), (2, 3)], [0], [], []⟩ : Resultado).Vn = some 0 :=
  C9_tierra_incondicional [⟨"V", 2, 0, 3⟩] ⟨[2], [(0, 0), (2, 3)], [0], [], []⟩
    (by decide) ⟨⟨"V", 2, 0, 3⟩, by decide, Or.inl (by decide)⟩

theorem foldlM_append_except (f : Build → Elemento → Except MNAError Build) (b : Build)
    (l1 l2 : List Elemento) :
    List.foldlM f b (l1 ++ l2) = List.foldlM f b l1 >>= fun b2 => List.foldlM f b2 l2 := by
  induction l1 generalizing b with
  | nil => rfl
  | cons a l ih =>
    rw [List.cons_append, foldlM_cons_except, foldlM_cons_except]
    cases hfa : f b a with
    | error err => rw [except_bind_error, except_bind_error, except_bind_error]
    | ok b1 => rw [except_bind_ok, except_bind_ok, ih b1]

/-- C10: a circuit whose prefix is well-formed and whose next element has an
unknown kind tag fails with `UnknownComponentKind` carrying that tag — the
check fires during matrix assembly, before the `n = 0` degenerate-case check
and before the linear solve, regardless of what follows (in particular even
if the circuit is also singular). -/
theorem C10_tipo_desconocido (l1 l2 : List Elemento) (e : Elemento)
    (hwf1 : ∀ x ∈ l1, wfElem x) (h1 : e.tipo ≠ "R") (h2 : e.tipo ≠ "V") :
    construir_y_resolver (l1 ++ e :: l2) = .error (.unknownKind e.tipo) := by
  obtain ⟨st1, hfold1⟩ :=
    foldl_wf_ok (nodo_index (nodosDe (l1 ++ e :: l2))) l1 build0 hwf1
  apply run_error
  show List.foldlM _ build0 (l1 ++ e :: l2) = _
  rw [foldlM_append_except _ build0 l1 (e :: l2), hfold1, except_bind_ok,
    foldlM_cons_except,
    stampElem_unknown (nodo_index (nodosDe (l1 ++ e :: l2))) st1 e h1 h2,
    except_bind_error]

/-- C10, witness: an unknown kind "C" in second position wins over the
otherwise-singular ground-to-ground source that follows. -/
theorem C10_testigo :
    construir_y_resolver [⟨"R", 1, 0, 5⟩, ⟨"C", 0, 0, 1⟩, ⟨"V", 0, 0, 5⟩] =
      .error (.unknownKind "C") :=
  C10_tipo_desconocido [⟨"R", 1, 0, 5⟩] [⟨"V", 0, 0, 5⟩] ⟨"C", 0, 0, 1⟩
    (by decide) (by decide) (by decide)

end MNA

namespace MNA

/-! ## Sanity theorems about the embedding itself -/

/-- When `solveLin` returns a vector, that vector really solves the linear
system: the Cramer formula is the genuine (unique) solution whenever the
determinant is nonzero, matching what `numpy.linalg.solve` computes. -/
theorem solveLin_some {k : Nat} (A : Matrix (Fin k) (Fin k) ℚ) (z : Fin k → ℚ)
    (x : Fin k → ℚ) (h : solveLin k A z = some x) : A.mulVec x = z := by
  by_cases hdet : detExec k A = 0
  · rw [solveLin_none A z hdet] at h
    exact Option.noConfusion h
  · unfold solveLin at h
    rw [if_neg hdet] at h
    injection h with hx
    have hd : A.det ≠ 0 := by rwa [detExec_eq_det] at hdet
    have hxv : x = A.det⁻¹ • Matrix.cramer A z := by
      rw [← hx]
      funext i
      rw [detExec_eq_det, detExec_eq_det, ← Matrix.cramer_apply, Pi.smul_apply,
        smul_eq_mul, div_eq_inv_mul]
    rw [hxv, Matrix.mulVec_smul, Matrix.mulVec_cramer, smul_smul,
      inv_mul_cancel₀ hd, one_smul]

/-- Insertion keeps the node list strictly ascending. -/
theorem insNodo_sorted (x : Nat) (l : List Nat) (h : l.Sorted (· < ·)) :
    (insNodo x l).Sorted (· < ·) := by
  induction l with
  | nil => simp [insNodo]
  | cons y ys ih =>
    rw [List.sorted_cons] at h
    unfold insNodo
    split_ifs with h1 h2
    · rw [List.sorted_cons]
      refine ⟨?_, List.sorted_cons.mpr h⟩
      intro b hb
      rcases List.mem_cons.mp hb with rfl | hb
      · exact h1
      · exact h1.trans (h.1 b hb)
    · exact List.sorted_cons.mpr h
    · rw [List.sorted_cons]
      refine ⟨?_, ih h.2⟩
      intro b hb
      rcases (mem_insNodo b x ys).mp hb with rfl | hb
      · omega
      · exact h.1 b hb

/-- The node list is strictly ascending, hence duplicate-free: it faithfully
lists Python's `sorted(set(...))`. -/
theorem sortNodos_sorted (l : List Nat) : (sortNodos l).Sorted (· < ·) := by
  induction l with
  | nil => simp [sortNodos]
  | cons a l ih => exact insNodo_sorted a (sortNodos l) ih

theorem sortNodos_nodup (l : List Nat) : (sortNodos l).Nodup :=
  (sortNodos_sorted l).nodup

/-- The spec's voltage-divider example: 1 kΩ from node 1 to node 2, 2 kΩ from
node 2 to ground, 9 V from node 1 to ground. Node 2 solves to exactly 6 V,
both resistors carry 3 mA, and the source supplies -3 mA by its sign
convention. -/
theorem divisor_de_voltaje :
    construir_y_resolver [⟨"R", 1, 2, 1000⟩, ⟨"R", 2, 0, 2000⟩, ⟨"V", 1, 0, 9⟩] =
      .ok ⟨[1, 2], [(0, 0), (1, 9), (2, 6)], [-(3 / 1000)], [3 / 1000, 3 / 1000],
        [9 / 1000, 9 / 500]⟩ := by
  decide

end MNA
